import Mathlib

/-!
Shallow embedding of `converter.py` from the Shopify→ikas converter repository.

Modelling conventions:
* A loaded table is a list of rows; each cell is an `Option String`, where
  `none` plays the role of a pandas `NaN` / absent column for that row and
  `some s` is a present cell (so `dropna` is `filterMap`, `pd.notna` is
  `Option.isSome`).  Cells are modelled as strings, as obtained from a CSV
  read; numeric cells go through explicit parse functions mirroring Python's
  `float(...)` / `int(...)` on decimal strings (sign, digits, optional
  fractional part; exponents and underscores are not modelled).
* Python `str.strip()` is `pyStrip` (drop whitespace at both ends) and
  `str.upper()` is `pyUpper` (character-wise upper-casing, which covers the
  ASCII sentinel literals the code compares against).
* Prices are exact decimal numbers (`Dec10`: an integer numerator over a
  power of ten, kept canonical by stripping trailing zeros, so structural
  equality is value equality).  The program performs no arithmetic on its
  floats — it only parses them, compares against `0.0` and stores them — so
  exact decimals model `float(...)` faithfully on this fragment.
-/

namespace ShopifyIkas

/-- A cell of the loaded table: `none` = NaN/absent, `some s` = present. -/
abbrev Cell := Option String

/-- One input row, with a field for every column `shopify_to_ikas_converter`
reads (plus the two recognized-but-never-read Option3 columns). -/
structure Row where
  handle : Cell := none
  title : Cell := none
  bodyHtml : Cell := none
  vendor : Cell := none
  type : Cell := none
  productCategory : Cell := none
  tags : Cell := none
  published : Cell := none
  status : Cell := none
  option1Name : Cell := none
  option1Value : Cell := none
  option2Name : Cell := none
  option2Value : Cell := none
  option3Name : Cell := none
  option3Value : Cell := none
  variantSku : Cell := none
  variantBarcode : Cell := none
  barcode : Cell := none
  variantInventoryQty : Cell := none
  variantPrice : Cell := none
  compareAtPrice : Cell := none
  variantCompareAtPrice : Cell := none
  imageSrc : Cell := none
  variantImage : Cell := none
  seoTitle : Cell := none
  seoDescription : Cell := none
  createdAt : Cell := none
  googleShoppingCategory : Cell := none
  googleProductCategory : Cell := none
deriving Repr, DecidableEq

/-- Python `str.strip()`: drop whitespace from both ends. -/
def pyStrip (s : String) : String :=
  String.mk (((s.data.dropWhile Char.isWhitespace).reverse.dropWhile Char.isWhitespace).reverse)

/-- Python `str.upper()`: character-wise upper-casing. -/
def pyUpper (s : String) : String :=
  String.mk (s.data.map Char.toUpper)

/-- Numeric value of a digit list, most significant first. -/
def digitsVal (cs : List Char) : Nat :=
  cs.foldl (fun a c => a * 10 + (c.toNat - 48)) 0

/-- All characters are decimal digits. -/
def allDigits (cs : List Char) : Bool :=
  cs.all (fun c => c.isDigit)

/-- Split a character list at the first dot, if any. -/
def splitOnDot (cs : List Char) : List Char × Option (List Char) :=
  match cs.span (fun c => c != '.') with
  | (ip, []) => (ip, none)
  | (ip, _ :: fp) => (ip, some fp)

/-- An exact decimal number `num / 10 ^ exp`, canonical (trailing zeros of
the fraction stripped), standing in for the parsed Python float. -/
structure Dec10 where
  num : Int
  exp : Nat
deriving Repr, DecidableEq

/-- The decimal zero (`0.0`). -/
def decZero : Dec10 := ⟨0, 0⟩

/-- Canonicalize `n / 10 ^ e` by stripping factors of ten. -/
def normDec (n : Int) : Nat → Dec10
  | 0 => ⟨n, 0⟩
  | e + 1 => if n % 10 = 0 then normDec (n / 10) e else ⟨n, e + 1⟩

/-- Python `float(s)` on a decimal string: optional surrounding whitespace,
optional sign, digits with an optional fractional part (`"1."` and `".5"`
are accepted, `"."` and `""` are not). Returns `none` where Python raises. -/
def pyFloat (s : String) : Option Dec10 :=
  let t := pyStrip s
  let sb : Int × List Char :=
    match t.toList with
    | '-' :: rest => (-1, rest)
    | '+' :: rest => (1, rest)
    | cs => (1, cs)
  match splitOnDot sb.2 with
  | (ip, none) =>
    if allDigits ip ∧ ip ≠ [] then some (normDec (sb.1 * (digitsVal ip : Int)) 0) else none
  | (ip, some fp) =>
    if allDigits ip ∧ allDigits fp ∧ (ip ≠ [] ∨ fp ≠ []) then
      some (normDec (sb.1 * ((digitsVal ip * 10 ^ fp.length + digitsVal fp : Nat) : Int))
        fp.length)
    else none

/-- Python `int(s)` on a decimal string: optional whitespace, optional sign,
digits only. Returns `none` where Python raises. -/
def pyInt (s : String) : Option Int :=
  let t := pyStrip s
  let sb : Int × List Char :=
    match t.toList with
    | '-' :: rest => (-1, rest)
    | '+' :: rest => (1, rest)
    | cs => (1, cs)
  if allDigits sb.2 ∧ sb.2 ≠ [] then some (sb.1 * (digitsVal sb.2 : Int)) else none

/-- One step of order-preserving deduplication. -/
def dedupStep {α : Type} [DecidableEq α] (acc : List α) (x : α) : List α :=
  if x ∈ acc then acc else acc ++ [x]

/-- Order-preserving deduplication keeping first occurrences, as iterating a
Python `dict` / insertion-ordered set does. -/
def dedupKeep {α : Type} [DecidableEq α] (l : List α) : List α :=
  l.foldl dedupStep []

/-- `group_df[col].dropna().iloc[0] if ... else ""`: first present cell of a
column within a group, defaulting to the empty string. -/
def firstNonNA (f : Row → Cell) (g : List Row) : String :=
  ((g.filterMap f).head?).getD ""

/-- `not group_df[col].dropna().empty`: the column has a present cell. -/
def hasNonNA (f : Row → Cell) (g : List Row) : Bool :=
  !(g.filterMap f).isEmpty

/-- The per-handle shared attributes (`common_info[handle]`). -/
structure CommonInfo where
  title : String
  bodyHtml : String
  category : String
  tags : String
  vendor : String
  seoTitle : String
  seoDescription : String
  googleCategory : String
  type : String
  createdAt : String
deriving Repr, DecidableEq

/-- Category resolution: Product Category column if it has any present value
in the group, else the Type column, else blank (lines 149-153, 196). -/
def categoryOf (g : List Row) : String :=
  if hasNonNA (fun r => r.productCategory) g then firstNonNA (fun r => r.productCategory) g
  else if hasNonNA (fun r => r.type) g then firstNonNA (fun r => r.type) g
  else ""

/-- Google category: primary header, else legacy header (lines 164-168). -/
def googleCategoryOf (g : List Row) : String :=
  if hasNonNA (fun r => r.googleShoppingCategory) g then
    firstNonNA (fun r => r.googleShoppingCategory) g
  else if hasNonNA (fun r => r.googleProductCategory) g then
    firstNonNA (fun r => r.googleProductCategory) g
  else ""

/-- The aggregation loop body building `common_info[handle]` (lines 146-204). -/
def commonInfoOf (g : List Row) : CommonInfo :=
  { title := firstNonNA (fun r => r.title) g
    bodyHtml := firstNonNA (fun r => r.bodyHtml) g
    category := categoryOf g
    tags := firstNonNA (fun r => r.tags) g
    vendor := firstNonNA (fun r => r.vendor) g
    seoTitle := firstNonNA (fun r => r.seoTitle) g
    seoDescription := firstNonNA (fun r => r.seoDescription) g
    googleCategory := googleCategoryOf g
    type := firstNonNA (fun r => r.type) g
    createdAt := firstNonNA (fun r => r.createdAt) g }

/-- `status_value` resolution per handle (lines 181-189): first present
Status cell trimmed-uppercased; else Published mapped TRUE/1/YES → ACTIVE. -/
def statusValueOf (g : List Row) : Option String :=
  match (g.filterMap (fun r => r.status)).head? with
  | some s => some (pyUpper (pyStrip s))
  | none =>
    match (g.filterMap (fun r => r.published)).head? with
    | some p =>
      if pyUpper (pyStrip p) = "TRUE" ∨ pyUpper (pyStrip p) = "1" ∨ pyUpper (pyStrip p) = "YES" then
        some "ACTIVE"
      else none
    | none => none

/-- `handle_status[handle] = status_value == "ACTIVE" if status_value else False`. -/
def visibleOf (g : List Row) : Bool :=
  match statusValueOf g with
  | some s => if s ≠ "" then s = "ACTIVE" else false
  | none => false

/-- Insertion sort step for the lexicographic image-URL sort. -/
def insertSorted (x : String) : List String → List String
  | [] => [x]
  | y :: ys => if x ≤ y then x :: y :: ys else y :: insertSorted x ys

/-- Lexicographic sort of strings, as Python `sorted` on a set of strings. -/
def sortStrings (l : List String) : List String :=
  l.foldr insertSorted []

/-- Image aggregation (lines 206-218): union of present, non-empty Image Src
and Variant Image cells, deduplicated, sorted, semicolon-joined. -/
def imagesOf (g : List Row) : String :=
  let srcs := (g.filterMap (fun r => r.imageSrc)).filter (fun s => s ≠ "")
  let vimgs := (g.filterMap (fun r => r.variantImage)).filter (fun s => s ≠ "")
  String.intercalate ";" (sortStrings (dedupKeep (srcs ++ vimgs)))

/-- Cell extraction used in the variant loop (lines 364-380): a present cell
whose trim is non-empty yields its trimmed value, else the empty string. -/
def cleanCell (c : Cell) : String :=
  match c with
  | some v => if v ≠ "" ∧ pyStrip v ≠ "" then pyStrip v else ""
  | none => ""

/-- Option-value extraction (lines 364-394): `cleanCell` plus suppression of
the literal "DEFAULT TITLE" (case-insensitive) to blank. -/
def cleanOption (c : Cell) : String :=
  let v := cleanCell c
  if v ≠ "" ∧ pyStrip (pyUpper v) = "DEFAULT TITLE" then "" else v

/-- The variant-combination key as the code represents it: a plain pair of
strings, with the SKU fallback encoded by the sentinel first component
"SKU_ONLY" (lines 410-419). -/
abbrev VKey := String × String

/-- Variant-key construction for one row (lines 356-422): `none` when the row
carries no variant signal and is skipped. -/
def variantKeyOf (r : Row) : Option VKey :=
  let option1Value := cleanOption r.option1Value
  let option2Value := cleanOption r.option2Value
  let variantSku := cleanCell r.variantSku
  if option1Value = "" ∧ option2Value = "" ∧ variantSku = "" then none
  else
    let normalizedOption1 := if option1Value ≠ "" then pyUpper (pyStrip option1Value) else ""
    let normalizedOption2 := if option2Value ≠ "" then pyUpper (pyStrip option2Value) else ""
    let normalizedSku := if variantSku ≠ "" then pyStrip variantSku else ""
    if normalizedOption1 ≠ "" ∨ normalizedOption2 ≠ "" then
      some (normalizedOption1, normalizedOption2)
    else if normalizedSku ≠ "" then
      some ("SKU_ONLY", normalizedSku)
    else none

/-- The per-key record in `variant_combinations`: retained option values from
first occurrence plus the accumulated member rows (lines 424-435). -/
structure Bucket where
  option1Value : String
  option2Value : String
  rows : List Row
deriving Repr, DecidableEq

/-- One iteration of the bucketing loop (lines 356-435). -/
def insertVariantRow (buckets : List (VKey × Bucket)) (r : Row) : List (VKey × Bucket) :=
  match variantKeyOf r with
  | none => buckets
  | some k =>
    if k ∈ buckets.map Prod.fst then
      buckets.map (fun p => if p.1 = k then (p.1, { p.2 with rows := p.2.rows ++ [r] }) else p)
    else
      buckets ++ [(k, ⟨cleanOption r.option1Value, cleanOption r.option2Value, [r]⟩)]

/-- `variant_combinations` after the bucketing loop, in insertion order. -/
def consolidate (g : List Row) : List (VKey × Bucket) :=
  g.foldl insertVariantRow []

/-- Accumulator of the five independently merged per-product fields. -/
structure MergeAcc where
  variantSku : String
  barcode : String
  salePrice : Dec10
  discountedPrice : Dec10
  stockQty : Int
deriving Repr, DecidableEq

/-- The initial accumulator (`"" / "" / 0.0 / 0.0 / 0`). -/
def mergeInit : MergeAcc := ⟨"", "", decZero, decZero, 0⟩

/-- The barcode / sale price / discounted price / stock updates shared by the
simple and variant merge loops (lines 256-284 and 546-578). -/
def mergeRest (acc : MergeAcc) (r : Row) : MergeAcc :=
  let barcode :=
    if acc.barcode = "" then
      match r.variantBarcode with
      | some v => v
      | none => r.barcode.getD ""
    else acc.barcode
  let salePrice :=
    if acc.salePrice = decZero then
      match r.variantPrice with
      | some v => (pyFloat v).getD acc.salePrice
      | none => acc.salePrice
    else acc.salePrice
  let discountedPrice :=
    if acc.discountedPrice = decZero then
      match r.compareAtPrice.orElse (fun _ => r.variantCompareAtPrice) with
      | some v => (pyFloat v).getD acc.discountedPrice
      | none => acc.discountedPrice
    else acc.discountedPrice
  let stockQty :=
    if acc.stockQty = 0 then
      match r.variantInventoryQty with
      | some v => (pyInt v).getD acc.stockQty
      | none => acc.stockQty
    else acc.stockQty
  { acc with barcode := barcode, salePrice := salePrice,
             discountedPrice := discountedPrice, stockQty := stockQty }

/-- One iteration of the simple-product merge loop (lines 252-284): the SKU is
taken raw (`str(...)`, no strip) and the remaining fields always follow. -/
def simpleMergeStep (acc : MergeAcc) (r : Row) : MergeAcc :=
  let acc1 :=
    if acc.variantSku = "" then
      match r.variantSku with
      | some v => { acc with variantSku := v }
      | none => acc
    else acc
  mergeRest acc1 r

/-- One iteration of the per-bucket merge loop (lines 539-578): the SKU is
trimmed, and a present but whitespace-only SKU hits the `continue`, skipping
the remaining fields for that row. -/
def variantMergeStep (acc : MergeAcc) (r : Row) : MergeAcc :=
  if acc.variantSku = "" then
    match r.variantSku with
    | some v =>
      if pyStrip v = "" then { acc with variantSku := pyStrip v }
      else mergeRest { acc with variantSku := pyStrip v } r
    | none => mergeRest acc r
  else mergeRest acc r

/-- The simple-product merge over a whole handle group (both the classified
simple branch, lines 245-284, and the identical no-buckets fallback branch,
lines 445-479). -/
def simpleMergeOf (g : List Row) : MergeAcc :=
  g.foldl simpleMergeStep mergeInit

/-- The per-bucket merge over a bucket's member rows (lines 533-578). -/
def variantMergeOf (rs : List Row) : MergeAcc :=
  rs.foldl variantMergeStep mergeInit

/-- A cell of the emitted table: the row dictionaries hold strings for most
fields but raw numbers for the two price fields and the stock field. -/
inductive OutCell where
  | str (s : String)
  | flt (q : Dec10)
  | int (n : Int)
deriving Repr, DecidableEq

/-- One output row in the fixed 37-column ikas schema, field order as in
`IKAS_COLUMNS`. -/
structure IkasRow where
  urunGrupId : OutCell
  varyantId : OutCell
  isim : OutCell
  aciklama : OutCell
  satisFiyati : OutCell
  indirimliFiyati : OutCell
  alisFiyati : OutCell
  barkodListesi : OutCell
  sku : OutCell
  silindiMi : OutCell
  marka : OutCell
  kategoriler : OutCell
  etiketler : OutCell
  resimUrl : OutCell
  metadataBaslik : OutCell
  metadataAciklama : OutCell
  slug : OutCell
  stokAnaDepo : OutCell
  tip : OutCell
  varyantTip1 : OutCell
  varyantDeger1 : OutCell
  varyantTip2 : OutCell
  varyantDeger2 : OutCell
  desi : OutCell
  hsKod : OutCell
  birimUrunMiktari : OutCell
  urunBirimi : OutCell
  satilanUrunMiktari : OutCell
  satilanUrunBirimi : OutCell
  googleUrunKategorisi : OutCell
  tedarikci : OutCell
  stoguTukenince : OutCell
  satisKanaliBelix : OutCell
  sepetMin : OutCell
  sepetMax : OutCell
  varyantAktiflik : OutCell
  olusturulmaTarihi : OutCell
deriving Repr, DecidableEq

/-- The simple-product output dictionary (lines 290-328, duplicated verbatim
at lines 483-521): blank group id and blank variant-axis fields. -/
def simpleIkasRow (handle : String) (c : CommonInfo) (images : String)
    (visible : Bool) (m : MergeAcc) : IkasRow :=
  { urunGrupId := .str ""
    varyantId := .str ""
    isim := .str c.title
    aciklama := .str c.bodyHtml
    satisFiyati := .flt m.salePrice
    indirimliFiyati := .flt m.discountedPrice
    alisFiyati := .str ""
    barkodListesi := .str m.barcode
    sku := .str m.variantSku
    silindiMi := .str ""
    marka := .str c.vendor
    kategoriler := .str c.category
    etiketler := .str c.tags
    resimUrl := .str images
    metadataBaslik := .str c.seoTitle
    metadataAciklama := .str c.seoDescription
    slug := .str handle
    stokAnaDepo := .int m.stockQty
    tip := .str c.type
    varyantTip1 := .str ""
    varyantDeger1 := .str ""
    varyantTip2 := .str ""
    varyantDeger2 := .str ""
    desi := .str ""
    hsKod := .str ""
    birimUrunMiktari := .str ""
    urunBirimi := .str ""
    satilanUrunMiktari := .str ""
    satilanUrunBirimi := .str ""
    googleUrunKategorisi := .str c.googleCategory
    tedarikci := .str c.vendor
    stoguTukenince := .str ""
    satisKanaliBelix := .str (if visible then "VISIBLE" else "")
    sepetMin := .str ""
    sepetMax := .str ""
    varyantAktiflik := .str ""
    olusturulmaTarihi := .str c.createdAt }

/-- The per-bucket output dictionary (lines 527-640): group id is the handle,
axis names come from the handle's first row, axis values from the bucket's
retained option values with "DEFAULT TITLE" suppressed. -/
def variantIkasRow (handle : String) (c : CommonInfo) (images : String)
    (visible : Bool) (variantType1 variantType2 : String) (b : Bucket) : IkasRow :=
  let m := variantMergeOf b.rows
  let variantDeger1 :=
    if b.option1Value ≠ "" ∧ pyUpper b.option1Value ≠ "DEFAULT TITLE" then b.option1Value else ""
  let variantDeger2 :=
    if b.option2Value ≠ "" ∧ pyUpper b.option2Value ≠ "DEFAULT TITLE" then b.option2Value else ""
  { urunGrupId := .str handle
    varyantId := .str ""
    isim := .str c.title
    aciklama := .str c.bodyHtml
    satisFiyati := .flt m.salePrice
    indirimliFiyati := .flt m.discountedPrice
    alisFiyati := .str ""
    barkodListesi := .str m.barcode
    sku := .str m.variantSku
    silindiMi := .str ""
    marka := .str c.vendor
    kategoriler := .str c.category
    etiketler := .str c.tags
    resimUrl := .str images
    metadataBaslik := .str c.seoTitle
    metadataAciklama := .str c.seoDescription
    slug := .str handle
    stokAnaDepo := .int m.stockQty
    tip := .str c.type
    varyantTip1 := .str variantType1
    varyantDeger1 := .str variantDeger1
    varyantTip2 := .str variantType2
    varyantDeger2 := .str variantDeger2
    desi := .str ""
    hsKod := .str ""
    birimUrunMiktari := .str ""
    urunBirimi := .str ""
    satilanUrunMiktari := .str ""
    satilanUrunBirimi := .str ""
    googleUrunKategorisi := .str c.googleCategory
    tedarikci := .str c.vendor
    stoguTukenince := .str ""
    satisKanaliBelix := .str (if visible then "VISIBLE" else "")
    sepetMin := .str ""
    sepetMax := .str ""
    varyantAktiflik := .str ""
    olusturulmaTarihi := .str c.createdAt }

/-- Simple-product classification from the group's first row (lines 231-237):
the first row's primary option value, trimmed-uppercased, is the sentinel. -/
def isSimpleFirstRow (g : List Row) : Bool :=
  match g.head? with
  | none => false
  | some r =>
    match r.option1Value with
    | some v => pyUpper (pyStrip v) = "DEFAULT TITLE"
    | none => false

/-- Variant-axis names from the group's first row (lines 340-349). -/
def variantTypesOf (g : List Row) : String × String :=
  match g.head? with
  | none => ("", "")
  | some r => (r.option1Name.getD "", r.option2Name.getD "")

/-- The per-handle emission (lines 223-642): one row for a simple handle, one
per bucket for a variant-bearing handle, falling back to the simple path when
consolidation produces no buckets (lines 437-524). -/
def processGroup (handle : String) (g : List Row) : List IkasRow :=
  let c := commonInfoOf g
  let images := imagesOf g
  let visible := visibleOf g
  if isSimpleFirstRow g then
    [simpleIkasRow handle c images visible (simpleMergeOf g)]
  else
    let buckets := consolidate g
    if buckets.isEmpty then
      [simpleIkasRow handle c images visible (simpleMergeOf g)]
    else
      buckets.map (fun p =>
        variantIkasRow handle c images visible (variantTypesOf g).1 (variantTypesOf g).2 p.2)

/-- The loaded input table: its header (column names) and its rows. -/
structure Table where
  columns : List String
  rows : List Row

/-- Forward-fill of the Handle column (line 135), threading the last seen
present handle downward; leading absent handles stay absent. -/
def ffillFrom (last : Cell) : List Row → List Row
  | [] => []
  | r :: rs =>
    let h := match r.handle with
      | some v => some v
      | none => last
    { r with handle := h } :: ffillFrom h rs

/-- `source_df["Handle"] = source_df["Handle"].ffill()`. -/
def ffillRows (rows : List Row) : List Row :=
  ffillFrom none rows

/-- The distinct resolved handles in first-appearance order, as produced by
`groupby("Handle", sort=False)` (absent handles are dropped). -/
def resolvedHandles (t : Table) : List String :=
  dedupKeep ((ffillRows t.rows).filterMap (fun r => r.handle))

/-- The rows of one handle group, in original order. -/
def groupRows (rows : List Row) (h : String) : List Row :=
  rows.filter (fun r => decide (r.handle = some h))

/-- `shopify_to_ikas_converter` after the file has been loaded into a table:
the Handle-column check (lines 130-132), forward-fill, grouping, and the
per-group emission. Returns all emitted rows or the fatal error. -/
def shopifyToIkas (t : Table) : Except String (List IkasRow) :=
  if "Handle" ∈ t.columns then
    let rows := ffillRows t.rows
    .ok ((dedupKeep (rows.filterMap (fun r => r.handle))).flatMap
      (fun h => processGroup h (groupRows rows h)))
  else
    .error "Handle sütunu bulunamadı. Lütfen geçerli bir Shopify export dosyası yükleyin."

/-- The normalized option-value pair of a row (the pair branch of the key). -/
def normPair (r : Row) : String × String :=
  (pyUpper (pyStrip (cleanOption r.option1Value)), pyUpper (pyStrip (cleanOption r.option2Value)))

/-- The distinct non-blank normalized option-value-pair combinations of a
group, in first-appearance order (the K of the spec's counting property). -/
def comboKeys (g : List Row) : List (String × String) :=
  dedupKeep (g.filterMap (fun r =>
    if normPair r = ("", "") then none else some (normPair r)))

/-- Tagged-union variant key, modelled from the spec's words ("the key is the
pair of normalized option values ... else a sentinel tagged with the
normalized SKU") for comparison with the code's tuple encoding. -/
inductive SpecVKey where
  | byOptions (a b : String)
  | bySkuOnly (s : String)
deriving Repr, DecidableEq

/-- The spec-described key of a row: same guards as `variantKeyOf`, but with
the SKU fallback as a genuinely distinct tagged alternative. -/
def specVariantKey (r : Row) : Option SpecVKey :=
  let option1Value := cleanOption r.option1Value
  let option2Value := cleanOption r.option2Value
  let variantSku := cleanCell r.variantSku
  if option1Value = "" ∧ option2Value = "" ∧ variantSku = "" then none
  else
    let normalizedOption1 := if option1Value ≠ "" then pyUpper (pyStrip option1Value) else ""
    let normalizedOption2 := if option2Value ≠ "" then pyUpper (pyStrip option2Value) else ""
    let normalizedSku := if variantSku ≠ "" then pyStrip variantSku else ""
    if normalizedOption1 ≠ "" ∨ normalizedOption2 ≠ "" then
      some (.byOptions normalizedOption1 normalizedOption2)
    else if normalizedSku ≠ "" then
      some (.bySkuOnly normalizedSku)
    else none

/-- Erase the two Option3 cells of a row (for the non-interference claim). -/
def eraseOpt3 (r : Row) : Row :=
  { r with option3Name := none, option3Value := none }

/-- Invariant of `variant_combinations`: bucket keys are pairwise distinct,
every stored row has its bucket's key, and the retained option values are the
cleaned option values of the bucket's first member row. -/
def BucketsInv (bs : List (VKey × Bucket)) : Prop :=
  (bs.map Prod.fst).Nodup ∧
    ∀ p ∈ bs, (∀ r ∈ p.2.rows, variantKeyOf r = some p.1) ∧
      ∃ r0, p.2.rows.head? = some r0 ∧
        p.2.option1Value = cleanOption r0.option1Value ∧
        p.2.option2Value = cleanOption r0.option2Value

/-! ### Concrete inputs used by counterexamples and witnesses -/

/-- Key collision, left row: its normalized option pair is the code's SKU
sentinel tuple. -/
def rowColl1 : Row :=
  { handle := some "h", option1Value := some "sku_only", option2Value := some "x" }

/-- Key collision, right row: no option values, SKU only. -/
def rowColl2 : Row :=
  { handle := some "h", variantSku := some "X" }

/-- A row whose Variant SKU cell is present but whitespace-only while its
price cell parses to a nonzero number. -/
def rowWsSku : Row :=
  { handle := some "h", option1Value := some "Red", variantSku := some "  ",
    variantPrice := some "5" }

/-- Rows whose first Title cell is whitespace-only and whose second is real. -/
def rowBlankTitle : Row := { handle := some "h", title := some " " }

/-- Companion row with a real title. -/
def rowRealTitle : Row := { handle := some "h", title := some "Real" }

/-- Two Default-Title rows with distinct secondary option values. -/
def rowDT1 : Row :=
  { handle := some "h", option1Value := some "Default Title", option2Value := some "Red" }

/-- Second Default-Title row. -/
def rowDT2 : Row :=
  { handle := some "h", option1Value := some "Default Title", option2Value := some "Blue" }

/-- A row whose primary option value has surrounding whitespace. -/
def rowPadded : Row := { handle := some "h", option1Value := some " red " }

/-- A small variant-bearing group for witnesses: three rows, two distinct
combinations. -/
def rowWa : Row :=
  { handle := some "h", option1Value := some "S", option2Value := some "Blue",
    variantPrice := some "10" }

/-- Second witness row, duplicate combination of the first up to case. -/
def rowWb : Row :=
  { handle := some "h", option1Value := some "s ", option2Value := some " BLUE",
    variantPrice := some "12" }

/-- Third witness row, a fresh combination. -/
def rowWc : Row :=
  { handle := some "h", option1Value := some "M", option2Value := some "Blue" }

/-- Simple-product witness rows (Default Title). -/
def rowSimple1 : Row :=
  { handle := some "s", option1Value := some "Default Title", variantPrice := some "7" }

/-- Second simple-product witness row. -/
def rowSimple2 : Row :=
  { handle := some "s", option1Value := some " default TITLE " }

/-- A witness row with an unparseable price and a zero quantity. -/
def rowNoPrice : Row :=
  { handle := some "h", option1Value := some "Default Title",
    variantPrice := some "abc", variantInventoryQty := some "0" }

/-- The concrete bucket `consolidate [rowWa]` produces. -/
def bucketWa : VKey × Bucket :=
  (("S", "BLUE"), ⟨"S", "Blue", [rowWa]⟩)

/-- Column `f` has its first present cell at index `i`, holding `v`. -/
def firstPresentAt (f : Row → Cell) (g : List Row) (i : Nat) (v : String) : Prop :=
  (g[i]?).bind f = some v ∧ ∀ j, j < i → (g[j]?).bind f = none

/-- Erase the Option3 cells inside every stored row of a bucket entry. -/
def eraseBucketRows (p : VKey × Bucket) : VKey × Bucket :=
  (p.1, ⟨p.2.option1Value, p.2.option2Value, p.2.rows.map eraseOpt3⟩)

/-- A row carrying Option3 data, first variant. -/
def rowOpt3a : Row :=
  { handle := some "h", option1Value := some "S", option3Name := some "Width",
    option3Value := some "XL", variantPrice := some "9" }

/-- The same row with different Option3 data. -/
def rowOpt3b : Row :=
  { handle := some "h", option1Value := some "S", option3Name := some "Depth",
    option3Value := some "ZZ", variantPrice := some "9" }

/-- Table around `rowOpt3a`. -/
def tblOpt3a : Table := ⟨["Handle", "Option3 Name", "Option3 Value"], [rowOpt3a]⟩

/-- Table around `rowOpt3b`. -/
def tblOpt3b : Table := ⟨["Handle", "Option3 Name", "Option3 Value"], [rowOpt3b]⟩

/-- Witness table with a Handle column and two handles. -/
def tblW : Table :=
  ⟨["Handle", "Title"], [rowWa, rowWb, rowWc, rowSimple1, rowSimple2]⟩

/-- A table lacking the Handle column. -/
def tblNoHandle : Table :=
  ⟨["Title"], [rowWa]⟩

/-! ### Invariants of the bucketing fold -/

theorem map_fst_bucketUpdate (bs : List (VKey × Bucket)) (k : VKey) (r : Row) :
    (bs.map (fun p => if p.1 = k then (p.1, { p.2 with rows := p.2.rows ++ [r] }) else p)).map
        Prod.fst = bs.map Prod.fst := by
  induction bs with
  | nil => rfl
  | cons p bs ih =>
    by_cases hp : p.1 = k <;> simp [hp, ih]

theorem keys_insertVariantRow (bs : List (VKey × Bucket)) (r : Row) :
    (insertVariantRow bs r).map Prod.fst =
      match variantKeyOf r with
      | none => bs.map Prod.fst
      | some k => dedupStep (bs.map Prod.fst) k := by
  cases hk : variantKeyOf r with
  | none => simp [insertVariantRow, hk]
  | some k =>
    by_cases hmem : k ∈ bs.map Prod.fst
    · have hrw : insertVariantRow bs r =
          bs.map (fun p => if p.1 = k then (p.1, { p.2 with rows := p.2.rows ++ [r] }) else p) := by
        simp [insertVariantRow, hk, hmem]
      rw [hrw, map_fst_bucketUpdate]
      simp [dedupStep, hmem]
    · simp [insertVariantRow, hk, hmem, dedupStep]

theorem keys_foldl_insert (g : List Row) (bs : List (VKey × Bucket)) :
    (g.foldl insertVariantRow bs).map Prod.fst =
      (g.filterMap variantKeyOf).foldl dedupStep (bs.map Prod.fst) := by
  induction g generalizing bs with
  | nil => rfl
  | cons r g ih =>
    simp only [List.foldl_cons, List.filterMap_cons]
    cases hk : variantKeyOf r with
    | none =>
      rw [ih, keys_insertVariantRow, hk]
    | some k =>
      rw [ih, keys_insertVariantRow, hk]
      simp

theorem keys_consolidate (g : List Row) :
    (consolidate g).map Prod.fst = dedupKeep (g.filterMap variantKeyOf) := by
  unfold consolidate dedupKeep
  exact keys_foldl_insert g []

theorem head?_append_of_some {α : Type} {l l2 : List α} {a : α} (h : l.head? = some a) :
    (l ++ l2).head? = some a := by
  cases l <;> simp_all

theorem bucketsInv_insert {bs : List (VKey × Bucket)} (hinv : BucketsInv bs) (r : Row) :
    BucketsInv (insertVariantRow bs r) := by
  obtain ⟨hnd, hall⟩ := hinv
  cases hk : variantKeyOf r with
  | none => simpa [insertVariantRow, hk] using ⟨hnd, hall⟩
  | some k =>
    by_cases hmem : k ∈ bs.map Prod.fst
    · have hrw : insertVariantRow bs r =
          bs.map (fun p => if p.1 = k then (p.1, { p.2 with rows := p.2.rows ++ [r] }) else p) := by
        simp [insertVariantRow, hk, hmem]
      rw [hrw]
      constructor
      · rw [map_fst_bucketUpdate]; exact hnd
      · intro p hp
        obtain ⟨q, hq, hpq⟩ := List.mem_map.mp hp
        by_cases hqk : q.1 = k
        · subst hpq
          rw [if_pos hqk]
          obtain ⟨hkeyed, r0, hr0, ho1, ho2⟩ := hall q hq
          refine ⟨?_, r0, ?_, ho1, ho2⟩
          · intro x hx
            rcases List.mem_append.mp hx with hx | hx
            · exact hkeyed x hx
            · rw [List.mem_singleton.mp hx, hk, hqk]
          · exact head?_append_of_some hr0
        · subst hpq
          rw [if_neg hqk]
          exact hall q hq
    · have hrw : insertVariantRow bs r =
          bs ++ [(k, ⟨cleanOption r.option1Value, cleanOption r.option2Value, [r]⟩)] := by
        simp [insertVariantRow, hk, hmem]
      rw [hrw]
      constructor
      · simp only [List.map_append, List.map_cons, List.map_nil]
        simp [List.nodup_append, hnd, hmem]
      · intro p hp
        rcases List.mem_append.mp hp with hp | hp
        · exact hall p hp
        · rw [List.mem_singleton.mp hp]
          exact ⟨fun x hx => by rw [List.mem_singleton.mp hx]; exact hk, r, rfl, rfl, rfl⟩

theorem bucketsInv_foldl {bs : List (VKey × Bucket)} (hinv : BucketsInv bs) (g : List Row) :
    BucketsInv (g.foldl insertVariantRow bs) := by
  induction g generalizing bs with
  | nil => exact hinv
  | cons r g ih => exact ih (bucketsInv_insert hinv r)

theorem bucketsInv_consolidate (g : List Row) : BucketsInv (consolidate g) := by
  refine bucketsInv_foldl ⟨?_, ?_⟩ g
  · simp
  · intro p hp
    cases hp

theorem mem_insertVariantRow_self {r : Row} {k : VKey} (bs : List (VKey × Bucket))
    (hk : variantKeyOf r = some k) :
    ∃ p ∈ insertVariantRow bs r, p.1 = k ∧ r ∈ p.2.rows := by
  by_cases hmem : k ∈ bs.map Prod.fst
  · have hrw : insertVariantRow bs r =
        bs.map (fun p => if p.1 = k then (p.1, { p.2 with rows := p.2.rows ++ [r] }) else p) := by
      simp [insertVariantRow, hk, hmem]
    obtain ⟨q, hq, hqk⟩ := List.mem_map.mp hmem
    refine ⟨(q.1, { q.2 with rows := q.2.rows ++ [r] }), ?_, hqk, by simp⟩
    rw [hrw]
    have := List.mem_map_of_mem
      (fun p => if p.1 = k then (p.1, { p.2 with rows := p.2.rows ++ [r] }) else p) hq
    simpa [hqk] using this
  · have hrw : insertVariantRow bs r =
        bs ++ [(k, ⟨cleanOption r.option1Value, cleanOption r.option2Value, [r]⟩)] := by
      simp [insertVariantRow, hk, hmem]
    rw [hrw]
    exact ⟨(k, ⟨cleanOption r.option1Value, cleanOption r.option2Value, [r]⟩),
      by simp, rfl, by simp⟩

theorem mem_insertVariantRow_mono {bs : List (VKey × Bucket)} {p : VKey × Bucket}
    (hp : p ∈ bs) {x : Row} (hx : x ∈ p.2.rows) (r : Row) :
    ∃ q ∈ insertVariantRow bs r, q.1 = p.1 ∧ x ∈ q.2.rows := by
  cases hk : variantKeyOf r with
  | none =>
    refine ⟨p, ?_, rfl, hx⟩
    simpa [insertVariantRow, hk] using hp
  | some k =>
    by_cases hmem : k ∈ bs.map Prod.fst
    · have hrw : insertVariantRow bs r =
          bs.map (fun p => if p.1 = k then (p.1, { p.2 with rows := p.2.rows ++ [r] }) else p) := by
        simp [insertVariantRow, hk, hmem]
      by_cases hpk : p.1 = k
      · refine ⟨(p.1, { p.2 with rows := p.2.rows ++ [r] }), ?_, rfl, by simp [hx]⟩
        rw [hrw]
        have := List.mem_map_of_mem
          (fun p => if p.1 = k then (p.1, { p.2 with rows := p.2.rows ++ [r] }) else p) hp
        simpa [hpk] using this
      · refine ⟨p, ?_, rfl, hx⟩
        rw [hrw]
        have := List.mem_map_of_mem
          (fun p => if p.1 = k then (p.1, { p.2 with rows := p.2.rows ++ [r] }) else p) hp
        simpa [hpk] using this
    · have hrw : insertVariantRow bs r =
          bs ++ [(k, ⟨cleanOption r.option1Value, cleanOption r.option2Value, [r]⟩)] := by
        simp [insertVariantRow, hk, hmem]
      refine ⟨p, ?_, rfl, hx⟩
      rw [hrw]
      exact List.mem_append_left _ hp

theorem mem_foldl_insert_mono {bs : List (VKey × Bucket)} {p : VKey × Bucket}
    (hp : p ∈ bs) {x : Row} (hx : x ∈ p.2.rows) (g : List Row) :
    ∃ q ∈ g.foldl insertVariantRow bs, q.1 = p.1 ∧ x ∈ q.2.rows := by
  induction g generalizing bs p with
  | nil => exact ⟨p, hp, rfl, hx⟩
  | cons r g ih =>
    obtain ⟨q, hq, hqp, hxq⟩ := mem_insertVariantRow_mono hp hx r
    obtain ⟨q2, hq2, hq2q, hxq2⟩ := ih hq hxq
    exact ⟨q2, hq2, hq2q.trans hqp, hxq2⟩

theorem mem_consolidate_of_key {g : List Row} {r : Row} {k : VKey}
    (hr : r ∈ g) (hk : variantKeyOf r = some k) :
    ∃ p ∈ consolidate g, p.1 = k ∧ r ∈ p.2.rows := by
  unfold consolidate
  suffices h : ∀ (g : List Row) (bs : List (VKey × Bucket)), r ∈ g →
      ∃ p ∈ g.foldl insertVariantRow bs, p.1 = k ∧ r ∈ p.2.rows from h g [] hr
  intro g
  induction g with
  | nil => intro bs hmem; cases hmem
  | cons a g ih =>
    intro bs hmem
    rcases List.mem_cons.mp hmem with rfl | hmem
    · obtain ⟨p, hp, hpk, hrp⟩ := mem_insertVariantRow_self bs hk
      obtain ⟨q, hq, hqp, hrq⟩ := mem_foldl_insert_mono hp hrp g
      exact ⟨q, hq, hqp.trans hpk, hrq⟩
    · exact ih (insertVariantRow bs a) hmem

theorem rows_insertVariantRow_sub {bs : List (VKey × Bucket)} {r : Row}
    {p : VKey × Bucket} (hp : p ∈ insertVariantRow bs r) {x : Row} (hx : x ∈ p.2.rows) :
    (∃ q ∈ bs, x ∈ q.2.rows) ∨ x = r := by
  cases hk : variantKeyOf r with
  | none =>
    rw [show insertVariantRow bs r = bs from by simp [insertVariantRow, hk]] at hp
    exact Or.inl ⟨p, hp, hx⟩
  | some k =>
    by_cases hmem : k ∈ bs.map Prod.fst
    · rw [show insertVariantRow bs r =
          bs.map (fun p => if p.1 = k then (p.1, { p.2 with rows := p.2.rows ++ [r] }) else p)
          from by simp [insertVariantRow, hk, hmem]] at hp
      obtain ⟨q, hq, hpq⟩ := List.mem_map.mp hp
      by_cases hqk : q.1 = k
      · rw [if_pos hqk] at hpq
        subst hpq
        simp only at hx
        rcases List.mem_append.mp hx with hx | hx
        · exact Or.inl ⟨q, hq, hx⟩
        · exact Or.inr (List.mem_singleton.mp hx)
      · rw [if_neg hqk] at hpq
        subst hpq
        exact Or.inl ⟨q, hq, hx⟩
    · rw [show insertVariantRow bs r =
          bs ++ [(k, ⟨cleanOption r.option1Value, cleanOption r.option2Value, [r]⟩)]
          from by simp [insertVariantRow, hk, hmem]] at hp
      rcases List.mem_append.mp hp with hp | hp
      · exact Or.inl ⟨p, hp, hx⟩
      · rw [List.mem_singleton.mp hp] at hx
        exact Or.inr (List.mem_singleton.mp hx)

theorem eq_of_mem_of_nodup_keys {l : List (VKey × Bucket)} (hnd : (l.map Prod.fst).Nodup)
    {p q : VKey × Bucket} (hp : p ∈ l) (hq : q ∈ l) (h : p.1 = q.1) : p = q := by
  induction l with
  | nil => cases hp
  | cons a l ih =>
    simp only [List.map_cons, List.nodup_cons] at hnd
    rcases List.mem_cons.mp hp with hpa | hp
    · rcases List.mem_cons.mp hq with hqa | hq
      · rw [hpa, hqa]
      · exfalso
        apply hnd.1
        rw [← hpa, h]
        exact List.mem_map_of_mem Prod.fst hq
    · rcases List.mem_cons.mp hq with hqa | hq
      · exfalso
        apply hnd.1
        rw [← hqa, ← h]
        exact List.mem_map_of_mem Prod.fst hp
      · exact ih hnd.2 hp hq

theorem rows_consolidate_sub {g : List Row} {p : VKey × Bucket}
    (hp : p ∈ consolidate g) {x : Row} (hx : x ∈ p.2.rows) : x ∈ g := by
  unfold consolidate at hp
  suffices h : ∀ (g : List Row) (bs : List (VKey × Bucket)) (p : VKey × Bucket),
      p ∈ g.foldl insertVariantRow bs → ∀ x ∈ p.2.rows,
      (∃ q ∈ bs, x ∈ q.2.rows) ∨ x ∈ g by
    rcases h g [] p hp x hx with ⟨q, hq, _⟩ | hg
    · cases hq
    · exact hg
  intro g
  induction g with
  | nil => exact fun bs p hp x hx => Or.inl ⟨p, hp, hx⟩
  | cons a g ih =>
    intro bs p hp x hx
    rcases ih (insertVariantRow bs a) p hp x hx with hbs | hg
    · obtain ⟨q, hq, hxq⟩ := hbs
      rcases rows_insertVariantRow_sub hq hxq with ⟨q2, hq2, hxq2⟩ | rfl
      · exact Or.inl ⟨q2, hq2, hxq2⟩
      · exact Or.inr (by simp)
    · exact Or.inr (by simp [hg])

/-! ### Per-group emission lemmas -/

theorem processGroup_ne_nil (h : String) (g : List Row) : processGroup h g ≠ [] := by
  simp only [processGroup]
  split
  · simp
  · split
    · simp
    · rename_i hcond
      intro hmap
      exact hcond (by simp_all)

theorem processGroup_slug (h : String) (g : List Row) :
    ∀ row ∈ processGroup h g, row.slug = OutCell.str h := by
  intro row hrow
  simp only [processGroup] at hrow
  split at hrow
  · rw [List.mem_singleton.mp hrow]; rfl
  · split at hrow
    · rw [List.mem_singleton.mp hrow]; rfl
    · obtain ⟨p, _, hpr⟩ := List.mem_map.mp hrow
      rw [← hpr]; rfl

/-- C3 (amended): within any handle group, two rows that both carry a variant
signal land in the same bucket of `variant_combinations` if and only if their
code-level keys are equal, where the key is the plain string pair produced by
`variantKeyOf` — the pair of trimmed-uppercased option values when either is
non-blank, else the tuple `("SKU_ONLY", trimmed SKU)`; a bucket once created
is never split. (Unlike the claim's tagged-sentinel reading, the SKU fallback
is not a distinct kind: it can coincide with an option pair whose first
normalized value is the literal "SKU_ONLY", as the counterexample shows.) -/
theorem sameBucket_iff_eq_variantKey {g : List Row} {r1 r2 : Row} {k1 k2 : VKey}
    (h1 : r1 ∈ g) (h2 : r2 ∈ g)
    (hk1 : variantKeyOf r1 = some k1) (hk2 : variantKeyOf r2 = some k2) :
    (∃ p ∈ consolidate g, r1 ∈ p.2.rows ∧ r2 ∈ p.2.rows) ↔ k1 = k2 := by
  obtain ⟨hnd, hall⟩ := bucketsInv_consolidate g
  constructor
  · rintro ⟨p, hp, hr1, hr2⟩
    obtain ⟨hkeyed, -⟩ := hall p hp
    have e1 := hkeyed r1 hr1
    have e2 := hkeyed r2 hr2
    rw [hk1] at e1
    rw [hk2] at e2
    rw [← Option.some_inj, e1, ← e2]
  · rintro rfl
    obtain ⟨p, hp, hpk, hr1⟩ := mem_consolidate_of_key h1 hk1
    obtain ⟨q, hq, hqk, hr2⟩ := mem_consolidate_of_key h2 hk2
    have : p = q := eq_of_mem_of_nodup_keys hnd hp hq (hpk.trans hqk.symm)
    exact ⟨p, hp, hr1, this ▸ hr2⟩

/-- Witness for the amended C3 theorem: two rows whose option values differ
only in case and whitespace share one bucket. -/
theorem sameBucket_iff_eq_variantKey_witness :
    ∃ p ∈ consolidate [rowWa, rowWb], rowWa ∈ p.2.rows ∧ rowWb ∈ p.2.rows := by
  refine (@sameBucket_iff_eq_variantKey [rowWa, rowWb] rowWa rowWb
    ("S", "BLUE") ("S", "BLUE")
    (by decide) (by decide) (by decide) (by decide)).mpr rfl

/-- C3 counterexample: the claim as stated is false on the code. The row with
option values ("sku_only", "x") has the spec key `byOptions "SKU_ONLY" "X"`,
the row with only SKU "X" has the distinct spec key `bySkuOnly "X"`, yet the
code places both rows in one bucket, because both keys are encoded as the
same tuple `("SKU_ONLY", "X")`. -/
theorem sameBucket_spec_key_counterexample :
    (∃ p ∈ consolidate [rowColl1, rowColl2], rowColl1 ∈ p.2.rows ∧ rowColl2 ∈ p.2.rows) ∧
      specVariantKey rowColl1 = some (SpecVKey.byOptions "SKU_ONLY" "X") ∧
      specVariantKey rowColl2 = some (SpecVKey.bySkuOnly "X") ∧
      specVariantKey rowColl1 ≠ specVariantKey rowColl2 ∧
      variantKeyOf rowColl1 = variantKeyOf rowColl2 := by
  decide

/-- C1: for every table with a Handle column, the conversion succeeds and
every distinct resolved handle contributes at least one output row (its slug
is the handle); a handle classified simple emits exactly one row, and a
variant-bearing handle whose consolidation yields no buckets falls back to
the simple path and also emits exactly one row. -/
theorem every_handle_emits (t : Table) (hcol : "Handle" ∈ t.columns) (h0 : String)
    (hh : h0 ∈ resolvedHandles t) :
    ∃ out, shopifyToIkas t = Except.ok out ∧
      (∃ row ∈ out, row.slug = OutCell.str h0) ∧
      (isSimpleFirstRow (groupRows (ffillRows t.rows) h0) = true →
        (processGroup h0 (groupRows (ffillRows t.rows) h0)).length = 1) ∧
      (consolidate (groupRows (ffillRows t.rows) h0) = [] →
        (processGroup h0 (groupRows (ffillRows t.rows) h0)).length = 1) := by
  rw [show shopifyToIkas t = Except.ok
      ((dedupKeep ((ffillRows t.rows).filterMap (fun r => r.handle))).flatMap
        (fun h => processGroup h (groupRows (ffillRows t.rows) h)))
    from by simp [shopifyToIkas, hcol]]
  refine ⟨_, rfl, ?_, ?_, ?_⟩
  · obtain ⟨row, hrow⟩ : ∃ row, row ∈ processGroup h0 (groupRows (ffillRows t.rows) h0) := by
      cases hpg : processGroup h0 (groupRows (ffillRows t.rows) h0) with
      | nil => exact absurd hpg (processGroup_ne_nil h0 _)
      | cons a l => exact ⟨a, by simp [hpg]⟩
    refine ⟨row, ?_, processGroup_slug h0 _ row hrow⟩
    exact List.mem_flatMap.mpr ⟨h0, hh, hrow⟩
  · intro hs
    simp [processGroup, hs]
  · intro hb
    by_cases hs : isSimpleFirstRow (groupRows (ffillRows t.rows) h0) <;>
      simp [processGroup, hs, hb]

/-- Witness for C1 at a concrete five-row, two-handle table. -/
theorem every_handle_emits_witness :
    ∃ out, shopifyToIkas tblW = Except.ok out ∧
      (∃ row ∈ out, row.slug = OutCell.str "s") ∧
      (isSimpleFirstRow (groupRows (ffillRows tblW.rows) "s") = true →
        (processGroup "s" (groupRows (ffillRows tblW.rows) "s")).length = 1) ∧
      (consolidate (groupRows (ffillRows tblW.rows) "s") = [] →
        (processGroup "s" (groupRows (ffillRows tblW.rows) "s")).length = 1) :=
  every_handle_emits tblW (by decide) "s" (by decide)

/-! ### The counting property for variant-bearing groups -/

theorem pyNorm_empty : pyUpper (pyStrip "") = "" := by decide

theorem norm_ite (s : String) :
    (if s ≠ "" then pyUpper (pyStrip s) else "") = pyUpper (pyStrip s) := by
  by_cases h : s = ""
  · subst h
    simp [pyNorm_empty]
  · simp [h]

theorem variantKeyOf_eq_normPair {r : Row} (h : normPair r ≠ ("", "")) :
    variantKeyOf r = some (normPair r) := by
  have hne : pyUpper (pyStrip (cleanOption r.option1Value)) ≠ "" ∨
      pyUpper (pyStrip (cleanOption r.option2Value)) ≠ "" := by
    by_contra hc
    push_neg at hc
    exact h (by simp [normPair, hc.1, hc.2])
  have hguard : ¬(cleanOption r.option1Value = "" ∧ cleanOption r.option2Value = "" ∧
      cleanCell r.variantSku = "") := by
    rintro ⟨e1, e2, -⟩
    exact h (by simp [normPair, e1, e2, pyNorm_empty])
  simp only [variantKeyOf, norm_ite]
  rw [if_neg hguard, if_pos hne]
  rfl

theorem filterMap_variantKeyOf_eq {g : List Row}
    (hall : ∀ r ∈ g, normPair r ≠ ("", "")) :
    g.filterMap variantKeyOf = g.map normPair := by
  induction g with
  | nil => rfl
  | cons a g ih =>
    rw [List.filterMap_cons, variantKeyOf_eq_normPair (hall a (by simp))]
    simp only [List.map_cons]
    rw [ih (fun r hr => hall r (by simp [hr]))]

theorem comboKeys_eq {g : List Row}
    (hall : ∀ r ∈ g, normPair r ≠ ("", "")) :
    comboKeys g = dedupKeep (g.map normPair) := by
  unfold comboKeys
  congr 1
  induction g with
  | nil => rfl
  | cons a g ih =>
    rw [List.filterMap_cons, if_neg (hall a (by simp))]
    simp only [List.map_cons]
    rw [ih (fun r hr => hall r (by simp [hr]))]

/-- C2 (amended): for a handle group classified variant-bearing (its first
row's primary option value, trimmed-uppercased, is not "DEFAULT TITLE") whose
every row carries a non-blank normalized option-value pair, the conversion
emits exactly K output rows for that handle — K being the number of distinct
non-blank normalized pairs, duplicates collapsing — each with group id equal
to the handle, for any number of rows N ≥ K. (Without the variant-bearing
hypothesis the claim fails: a group whose first row reads "Default Title" is
classified simple no matter how many distinct combinations it spans; see the
counterexample.) -/
theorem variant_group_emits_K (h : String) (g : List Row) (hne : g ≠ [])
    (hns : isSimpleFirstRow g = false)
    (hall : ∀ r ∈ g, normPair r ≠ ("", "")) :
    (processGroup h g).length = (comboKeys g).length ∧
      ∀ row ∈ processGroup h g, row.urunGrupId = OutCell.str h := by
  have hkeys : (consolidate g).map Prod.fst = dedupKeep (g.map normPair) := by
    rw [keys_consolidate, filterMap_variantKeyOf_eq hall]
  have hcons_ne : consolidate g ≠ [] := by
    obtain ⟨r0, g2, rfl⟩ : ∃ r0 g2, g = r0 :: g2 := by
      cases g with
      | nil => exact absurd rfl hne
      | cons a l => exact ⟨a, l, rfl⟩
    obtain ⟨p, hp, -, -⟩ := mem_consolidate_of_key (List.mem_cons_self r0 g2)
      (variantKeyOf_eq_normPair (hall r0 (by simp)))
    intro hnil
    rw [hnil] at hp
    cases hp
  have hpg : processGroup h g = (consolidate g).map (fun p =>
      variantIkasRow h (commonInfoOf g) (imagesOf g) (visibleOf g)
        (variantTypesOf g).1 (variantTypesOf g).2 p.2) := by
    simp [processGroup, hns, List.isEmpty_iff, hcons_ne]
  constructor
  · rw [hpg, List.length_map, comboKeys_eq hall, ← hkeys, List.length_map]
  · intro row hrow
    rw [hpg] at hrow
    obtain ⟨p, -, hpr⟩ := List.mem_map.mp hrow
    rw [← hpr]
    rfl

/-- Witness for the amended C2 theorem: three rows, two distinct
combinations (two rows agree up to case and whitespace), two emitted rows. -/
theorem variant_group_emits_K_witness :
    (processGroup "h" [rowWa, rowWb, rowWc]).length =
        (comboKeys [rowWa, rowWb, rowWc]).length ∧
      ∀ row ∈ processGroup "h" [rowWa, rowWb, rowWc],
        row.urunGrupId = OutCell.str "h" :=
  variant_group_emits_K "h" [rowWa, rowWb, rowWc] (by decide) (by decide) (by decide)

/-- C2 counterexample: two rows spanning K = 2 distinct non-blank normalized
combinations, but the first row's primary option value is "Default Title", so
the code emits a single simple row with blank group id instead of two rows
carrying the handle as group id. -/
theorem variant_group_emits_K_counterexample :
    (comboKeys [rowDT1, rowDT2]).length = 2 ∧
      (∀ r ∈ [rowDT1, rowDT2], normPair r ≠ ("", "")) ∧
      (processGroup "h" [rowDT1, rowDT2]).length = 1 ∧
      ∀ row ∈ processGroup "h" [rowDT1, rowDT2],
        row.urunGrupId = OutCell.str "" := by
  decide

/-! ### Simple classification and Default-Title groups -/

/-- C6: a handle group in which every row's primary option value trims and
upper-cases to "DEFAULT TITLE" emits exactly one output row, with blank group
id and blank variant-axis name and value fields; and the simple
classification is a function of the group's first row alone. -/
theorem default_title_group_simple (h : String) (g : List Row) (hne : g ≠ [])
    (hall : ∀ r ∈ g, ∃ v, r.option1Value = some v ∧
      pyUpper (pyStrip v) = "DEFAULT TITLE") :
    (∃ row, processGroup h g = [row] ∧ row.urunGrupId = OutCell.str "" ∧
      row.varyantTip1 = OutCell.str "" ∧ row.varyantDeger1 = OutCell.str "" ∧
      row.varyantTip2 = OutCell.str "" ∧ row.varyantDeger2 = OutCell.str "") ∧
      ∀ g2 : List Row, g2.head? = g.head? → isSimpleFirstRow g2 = isSimpleFirstRow g := by
  obtain ⟨r0, g2, rfl⟩ : ∃ r0 g2, g = r0 :: g2 := by
    cases g with
    | nil => exact absurd rfl hne
    | cons a l => exact ⟨a, l, rfl⟩
  obtain ⟨v, hv, hvd⟩ := hall r0 (by simp)
  have hs : isSimpleFirstRow (r0 :: g2) = true := by
    simp [isSimpleFirstRow, hv, hvd]
  refine ⟨⟨simpleIkasRow h (commonInfoOf (r0 :: g2)) (imagesOf (r0 :: g2))
    (visibleOf (r0 :: g2)) (simpleMergeOf (r0 :: g2)), ?_, rfl, rfl, rfl, rfl, rfl⟩, ?_⟩
  · simp [processGroup, hs]
  · intro gg hgg
    unfold isSimpleFirstRow
    rw [hgg]

/-- Witness for C6: two Default-Title rows in different spellings. -/
theorem default_title_group_simple_witness :
    (∃ row, processGroup "s" [rowSimple1, rowSimple2] = [row] ∧
      row.urunGrupId = OutCell.str "" ∧
      row.varyantTip1 = OutCell.str "" ∧ row.varyantDeger1 = OutCell.str "" ∧
      row.varyantTip2 = OutCell.str "" ∧ row.varyantDeger2 = OutCell.str "") ∧
      ∀ g2 : List Row, g2.head? = ([rowSimple1, rowSimple2] : List Row).head? →
        isSimpleFirstRow g2 = isSimpleFirstRow [rowSimple1, rowSimple2] :=
  default_title_group_simple "s" [rowSimple1, rowSimple2] (by decide) (by
    intro r hr
    rcases List.mem_cons.mp hr with rfl | hr
    · exact ⟨"Default Title", rfl, by decide⟩
    · rcases List.mem_cons.mp hr with rfl | hr
      · exact ⟨" default TITLE ", rfl, by decide⟩
      · cases hr)

/-! ### Bucket identity retention -/

theorem pyUpper_cleanOption_ne {c : Cell} (h : cleanOption c ≠ "") :
    pyUpper (cleanOption c) ≠ "DEFAULT TITLE" := by
  unfold cleanOption at h ⊢
  by_cases hc : cleanCell c ≠ "" ∧ pyStrip (pyUpper (cleanCell c)) = "DEFAULT TITLE"
  · rw [if_pos hc] at h
    exact absurd rfl h
  · rw [if_neg hc] at h ⊢
    intro hup
    exact hc ⟨h, by rw [hup]; decide⟩

/-- C7 (amended): every bucket retains as its identity the option values of
its first member row as extracted by the bucketing loop — the original
casing, but trimmed of surrounding whitespace, and with the literal
"DEFAULT TITLE" (case-insensitively) suppressed to blank — and the emitted
variant-axis value fields equal exactly these retained strings. (The claim's
"preserve surrounding whitespace" is refuted by the counterexample: the
extraction strips the cell before it is retained.) -/
theorem bucket_retains_trimmed_first (g : List Row) (p : VKey × Bucket)
    (hp : p ∈ consolidate g) (handle : String) (c : CommonInfo) (images : String)
    (visible : Bool) (t1 t2 : String) :
    ∃ r0, p.2.rows.head? = some r0 ∧
      p.2.option1Value = cleanOption r0.option1Value ∧
      p.2.option2Value = cleanOption r0.option2Value ∧
      (variantIkasRow handle c images visible t1 t2 p.2).varyantDeger1 =
        OutCell.str p.2.option1Value ∧
      (variantIkasRow handle c images visible t1 t2 p.2).varyantDeger2 =
        OutCell.str p.2.option2Value := by
  obtain ⟨-, hall⟩ := bucketsInv_consolidate g
  obtain ⟨-, r0, hr0, ho1, ho2⟩ := hall p hp
  refine ⟨r0, hr0, ho1, ho2, ?_, ?_⟩
  · rw [show (variantIkasRow handle c images visible t1 t2 p.2).varyantDeger1 =
        OutCell.str (if p.2.option1Value ≠ "" ∧ pyUpper p.2.option1Value ≠ "DEFAULT TITLE"
          then p.2.option1Value else "") from rfl]
    by_cases hb : p.2.option1Value = ""
    · simp [hb]
    · have hne : pyUpper p.2.option1Value ≠ "DEFAULT TITLE" := by
        rw [ho1]
        exact pyUpper_cleanOption_ne (by rw [← ho1]; exact hb)
      rw [if_pos ⟨hb, hne⟩]
  · rw [show (variantIkasRow handle c images visible t1 t2 p.2).varyantDeger2 =
        OutCell.str (if p.2.option2Value ≠ "" ∧ pyUpper p.2.option2Value ≠ "DEFAULT TITLE"
          then p.2.option2Value else "") from rfl]
    by_cases hb : p.2.option2Value = ""
    · simp [hb]
    · have hne : pyUpper p.2.option2Value ≠ "DEFAULT TITLE" := by
        rw [ho2]
        exact pyUpper_cleanOption_ne (by rw [← ho2]; exact hb)
      rw [if_pos ⟨hb, hne⟩]

/-- Witness for the amended C7 theorem at the concrete one-row bucket. -/
theorem bucket_retains_trimmed_first_witness :
    ∃ r0, bucketWa.2.rows.head? = some r0 ∧
      bucketWa.2.option1Value = cleanOption r0.option1Value ∧
      bucketWa.2.option2Value = cleanOption r0.option2Value ∧
      (variantIkasRow "h" (commonInfoOf [rowWa]) "" false "Size" "Color"
          bucketWa.2).varyantDeger1 = OutCell.str bucketWa.2.option1Value ∧
      (variantIkasRow "h" (commonInfoOf [rowWa]) "" false "Size" "Color"
          bucketWa.2).varyantDeger2 = OutCell.str bucketWa.2.option2Value :=
  bucket_retains_trimmed_first [rowWa] bucketWa (by decide) "h"
    (commonInfoOf [rowWa]) "" false "Size" "Color"

/-- C7 counterexample: a primary option value " red " (padded) is emitted as
the trimmed "red", not as the original padded string the claim requires. -/
theorem bucket_retains_counterexample :
    rowPadded.option1Value = some " red " ∧
      (processGroup "h" [rowPadded]).map (fun row => row.varyantDeger1) =
        [OutCell.str "red"] ∧
      ("red" : String) ≠ " red " := by
  decide

/-! ### Shared-attribute resolution -/

theorem filterMap_head_of_firstPresentAt {f : Row → Cell} {g : List Row} {i : Nat}
    {v : String} (h : firstPresentAt f g i v) : (g.filterMap f).head? = some v := by
  obtain ⟨hi, hbefore⟩ := h
  induction g generalizing i with
  | nil => simp at hi
  | cons a g ih =>
    cases i with
    | zero =>
      have hfa : f a = some v := by simpa using hi
      rw [List.filterMap_cons, hfa]
      rfl
    | succ i =>
      have ha : f a = none := by
        have := hbefore 0 (Nat.succ_pos i)
        simpa using this
      rw [List.filterMap_cons, ha]
      exact ih (by simpa using hi) (fun j hj => by
        have := hbefore (j + 1) (Nat.succ_lt_succ hj)
        simpa using this)

theorem firstNonNA_of_firstPresentAt {f : Row → Cell} {g : List Row} {i : Nat}
    {v : String} (h : firstPresentAt f g i v) : firstNonNA f g = v := by
  unfold firstNonNA
  rw [filterMap_head_of_firstPresentAt h]
  rfl

theorem hasNonNA_of_firstPresentAt {f : Row → Cell} {g : List Row} {i : Nat}
    {v : String} (h : firstPresentAt f g i v) : hasNonNA f g = true := by
  unfold hasNonNA
  have := filterMap_head_of_firstPresentAt h
  cases hfm : g.filterMap f with
  | nil => rw [hfm] at this; simp at this
  | cons a l => simp

/-- C5 (amended): each shared scalar attribute is resolved as the first
present (non-NA) cell in row order within the group — a missing cell is
never chosen over a later present one — but presence, not non-blankness, is
what is tested: a present yet blank (e.g. whitespace-only) cell wins over a
later non-blank one, refuting the claim as stated (see counterexample). For
the category and Google-category attributes the rule applies to the primary
column (Product Category, the primary Google header). -/
theorem common_attrs_first_present (g : List Row) :
    (∀ i v, firstPresentAt (fun r => r.title) g i v → (commonInfoOf g).title = v) ∧
    (∀ i v, firstPresentAt (fun r => r.bodyHtml) g i v → (commonInfoOf g).bodyHtml = v) ∧
    (∀ i v, firstPresentAt (fun r => r.vendor) g i v → (commonInfoOf g).vendor = v) ∧
    (∀ i v, firstPresentAt (fun r => r.tags) g i v → (commonInfoOf g).tags = v) ∧
    (∀ i v, firstPresentAt (fun r => r.seoTitle) g i v → (commonInfoOf g).seoTitle = v) ∧
    (∀ i v, firstPresentAt (fun r => r.seoDescription) g i v →
      (commonInfoOf g).seoDescription = v) ∧
    (∀ i v, firstPresentAt (fun r => r.type) g i v → (commonInfoOf g).type = v) ∧
    (∀ i v, firstPresentAt (fun r => r.createdAt) g i v → (commonInfoOf g).createdAt = v) ∧
    (∀ i v, firstPresentAt (fun r => r.productCategory) g i v →
      (commonInfoOf g).category = v) ∧
    (∀ i v, firstPresentAt (fun r => r.googleShoppingCategory) g i v →
      (commonInfoOf g).googleCategory = v) := by
  refine ⟨?_, ?_, ?_, ?_, ?_, ?_, ?_, ?_, ?_, ?_⟩ <;> intro i v h
  · exact firstNonNA_of_firstPresentAt h
  · exact firstNonNA_of_firstPresentAt h
  · exact firstNonNA_of_firstPresentAt h
  · exact firstNonNA_of_firstPresentAt h
  · exact firstNonNA_of_firstPresentAt h
  · exact firstNonNA_of_firstPresentAt h
  · exact firstNonNA_of_firstPresentAt h
  · exact firstNonNA_of_firstPresentAt h
  · show categoryOf g = v
    unfold categoryOf
    rw [if_pos (hasNonNA_of_firstPresentAt h)]
    exact firstNonNA_of_firstPresentAt h
  · show googleCategoryOf g = v
    unfold googleCategoryOf
    rw [if_pos (hasNonNA_of_firstPresentAt h)]
    exact firstNonNA_of_firstPresentAt h

/-- Witness for the amended C5 theorem: the title of the second row is chosen
when the first row's title cell is missing. -/
theorem common_attrs_first_present_witness :
    (commonInfoOf [rowNoPrice, rowRealTitle]).title = "Real" :=
  (common_attrs_first_present [rowNoPrice, rowRealTitle]).1 1 "Real"
    ⟨by decide, by
      intro j hj
      interval_cases j
      decide⟩

/-- C5 counterexample: a present, whitespace-only title cell in the first row
is chosen over the later row's non-blank title, so a blank cell is chosen
although a later row holds a non-blank value — the claim as stated fails. -/
theorem common_attrs_counterexample :
    (commonInfoOf [rowBlankTitle, rowRealTitle]).title = " " ∧
      pyStrip " " = "" ∧
      rowRealTitle.title = some "Real" ∧ pyStrip "Real" ≠ "" := by
  decide

/-! ### The mandatory Handle column -/

/-- C8: with no "Handle" column the conversion fails immediately with the
fatal descriptive error and produces no rows; with the column present it
returns the complete output table — one emission per resolved handle — so
there is never partial output. -/
theorem handle_column_required (t : Table) :
    ("Handle" ∉ t.columns →
      shopifyToIkas t = Except.error
        "Handle sütunu bulunamadı. Lütfen geçerli bir Shopify export dosyası yükleyin.") ∧
    ("Handle" ∈ t.columns →
      shopifyToIkas t = Except.ok
        ((resolvedHandles t).flatMap
          (fun h => processGroup h (groupRows (ffillRows t.rows) h)))) := by
  constructor <;> intro h <;> simp [shopifyToIkas, h, resolvedHandles]

/-- Witness for C8: a concrete table without the Handle column errors. -/
theorem handle_column_required_witness :
    shopifyToIkas tblNoHandle = Except.error
      "Handle sütunu bulunamadı. Lütfen geçerli bir Shopify export dosyası yükleyin." :=
  (handle_column_required tblNoHandle).1 (by decide)

/-! ### Absent numeric fields surface as numeric zero -/

theorem mergeRest_salePrice_zero {acc : MergeAcc} {r : Row}
    (h : ∀ v, r.variantPrice = some v → (pyFloat v).getD decZero = decZero)
    (ha : acc.salePrice = decZero) : (mergeRest acc r).salePrice = decZero := by
  simp only [mergeRest]
  rw [if_pos ha]
  cases hv : r.variantPrice with
  | none => exact ha
  | some v =>
    rw [ha]
    exact h v hv

theorem mergeRest_stock_zero {acc : MergeAcc} {r : Row}
    (h : ∀ v, r.variantInventoryQty = some v → (pyInt v).getD 0 = 0)
    (ha : acc.stockQty = 0) : (mergeRest acc r).stockQty = 0 := by
  simp only [mergeRest]
  rw [if_pos ha]
  cases hv : r.variantInventoryQty with
  | none => exact ha
  | some v =>
    rw [ha]
    exact h v hv

theorem mergeRest_barcode_empty {acc : MergeAcc} {r : Row}
    (h1 : r.variantBarcode = none) (h2 : r.barcode = none)
    (ha : acc.barcode = "") : (mergeRest acc r).barcode = "" := by
  simp only [mergeRest]
  rw [if_pos ha, h1, h2]
  rfl

theorem variantMergeStep_absent {acc : MergeAcc} {r : Row} :
    ((∀ v, r.variantPrice = some v → (pyFloat v).getD decZero = decZero) →
      acc.salePrice = decZero → (variantMergeStep acc r).salePrice = decZero) ∧
    ((∀ v, r.variantInventoryQty = some v → (pyInt v).getD 0 = 0) →
      acc.stockQty = 0 → (variantMergeStep acc r).stockQty = 0) ∧
    (r.variantBarcode = none → r.barcode = none → acc.barcode = "" →
      (variantMergeStep acc r).barcode = "") := by
  by_cases hs : acc.variantSku = ""
  · cases hv : r.variantSku with
    | none =>
      have he : variantMergeStep acc r = mergeRest acc r := by
        simp [variantMergeStep, hs, hv]
      rw [he]
      exact ⟨fun hp => mergeRest_salePrice_zero hp, fun hq => mergeRest_stock_zero hq,
        fun h1 h2 => mergeRest_barcode_empty h1 h2⟩
    | some v =>
      by_cases ht : pyStrip v = ""
      · have he : variantMergeStep acc r = { acc with variantSku := pyStrip v } := by
          simp [variantMergeStep, hs, hv, ht]
        rw [he]
        exact ⟨fun _ ha => ha, fun _ ha => ha, fun _ _ ha => ha⟩
      · have he : variantMergeStep acc r =
            mergeRest { acc with variantSku := pyStrip v } r := by
          simp [variantMergeStep, hs, hv, ht]
        rw [he]
        refine ⟨?_, ?_, ?_⟩
        · intro hp ha
          exact mergeRest_salePrice_zero hp (by simpa using ha)
        · intro hq ha
          exact mergeRest_stock_zero hq (by simpa using ha)
        · intro h1 h2 ha
          exact mergeRest_barcode_empty h1 h2 (by simpa using ha)
  · have he : variantMergeStep acc r = mergeRest acc r := by
      simp [variantMergeStep, hs]
    rw [he]
    exact ⟨fun hp => mergeRest_salePrice_zero hp, fun hq => mergeRest_stock_zero hq,
      fun h1 h2 => mergeRest_barcode_empty h1 h2⟩

theorem simpleMergeStep_absent {acc : MergeAcc} {r : Row} :
    ((∀ v, r.variantPrice = some v → (pyFloat v).getD decZero = decZero) →
      acc.salePrice = decZero → (simpleMergeStep acc r).salePrice = decZero) ∧
    ((∀ v, r.variantInventoryQty = some v → (pyInt v).getD 0 = 0) →
      acc.stockQty = 0 → (simpleMergeStep acc r).stockQty = 0) ∧
    (r.variantBarcode = none → r.barcode = none → acc.barcode = "" →
      (simpleMergeStep acc r).barcode = "") := by
  by_cases hs : acc.variantSku = ""
  · cases hv : r.variantSku with
    | none =>
      have he : simpleMergeStep acc r = mergeRest acc r := by
        simp [simpleMergeStep, hs, hv]
      rw [he]
      exact ⟨fun hp => mergeRest_salePrice_zero hp, fun hq => mergeRest_stock_zero hq,
        fun h1 h2 => mergeRest_barcode_empty h1 h2⟩
    | some v =>
      have he : simpleMergeStep acc r = mergeRest { acc with variantSku := v } r := by
        simp [simpleMergeStep, hs, hv]
      rw [he]
      refine ⟨?_, ?_, ?_⟩
      · intro hp ha
        exact mergeRest_salePrice_zero hp (by simpa using ha)
      · intro hq ha
        exact mergeRest_stock_zero hq (by simpa using ha)
      · intro h1 h2 ha
        exact mergeRest_barcode_empty h1 h2 (by simpa using ha)
  · have he : simpleMergeStep acc r = mergeRest acc r := by
      simp [simpleMergeStep, hs]
    rw [he]
    exact ⟨fun hp => mergeRest_salePrice_zero hp, fun hq => mergeRest_stock_zero hq,
      fun h1 h2 => mergeRest_barcode_empty h1 h2⟩

theorem foldl_variantMerge_absent {rs : List Row} {acc : MergeAcc} :
    ((∀ r ∈ rs, ∀ v, r.variantPrice = some v → (pyFloat v).getD decZero = decZero) →
      acc.salePrice = decZero → (rs.foldl variantMergeStep acc).salePrice = decZero) ∧
    ((∀ r ∈ rs, ∀ v, r.variantInventoryQty = some v → (pyInt v).getD 0 = 0) →
      acc.stockQty = 0 → (rs.foldl variantMergeStep acc).stockQty = 0) ∧
    ((∀ r ∈ rs, r.variantBarcode = none ∧ r.barcode = none) → acc.barcode = "" →
      (rs.foldl variantMergeStep acc).barcode = "") := by
  induction rs generalizing acc with
  | nil => exact ⟨fun _ ha => ha, fun _ ha => ha, fun _ ha => ha⟩
  | cons r rs ih =>
    have hstep := @variantMergeStep_absent acc r
    refine ⟨?_, ?_, ?_⟩
    · intro hp ha
      exact ih.1 (fun r2 hr2 => hp r2 (List.mem_cons_of_mem r hr2))
        (hstep.1 (hp r (List.mem_cons_self r rs)) ha)
    · intro hq ha
      exact ih.2.1 (fun r2 hr2 => hq r2 (List.mem_cons_of_mem r hr2))
        (hstep.2.1 (hq r (List.mem_cons_self r rs)) ha)
    · intro hb ha
      exact ih.2.2 (fun r2 hr2 => hb r2 (List.mem_cons_of_mem r hr2))
        (hstep.2.2 (hb r (List.mem_cons_self r rs)).1
          (hb r (List.mem_cons_self r rs)).2 ha)

theorem foldl_simpleMerge_absent {rs : List Row} {acc : MergeAcc} :
    ((∀ r ∈ rs, ∀ v, r.variantPrice = some v → (pyFloat v).getD decZero = decZero) →
      acc.salePrice = decZero → (rs.foldl simpleMergeStep acc).salePrice = decZero) ∧
    ((∀ r ∈ rs, ∀ v, r.variantInventoryQty = some v → (pyInt v).getD 0 = 0) →
      acc.stockQty = 0 → (rs.foldl simpleMergeStep acc).stockQty = 0) ∧
    ((∀ r ∈ rs, r.variantBarcode = none ∧ r.barcode = none) → acc.barcode = "" →
      (rs.foldl simpleMergeStep acc).barcode = "") := by
  induction rs generalizing acc with
  | nil => exact ⟨fun _ ha => ha, fun _ ha => ha, fun _ ha => ha⟩
  | cons r rs ih =>
    have hstep := @simpleMergeStep_absent acc r
    refine ⟨?_, ?_, ?_⟩
    · intro hp ha
      exact ih.1 (fun r2 hr2 => hp r2 (List.mem_cons_of_mem r hr2))
        (hstep.1 (hp r (List.mem_cons_self r rs)) ha)
    · intro hq ha
      exact ih.2.1 (fun r2 hr2 => hq r2 (List.mem_cons_of_mem r hr2))
        (hstep.2.1 (hq r (List.mem_cons_self r rs)) ha)
    · intro hb ha
      exact ih.2.2 (fun r2 hr2 => hb r2 (List.mem_cons_of_mem r hr2))
        (hstep.2.2 (hb r (List.mem_cons_self r rs)).1
          (hb r (List.mem_cons_self r rs)).2 ha)

/-- C10: an absent sale price or stock quantity surfaces at the output as a
numeric zero, never as a blank string. Part one: when no row of the group
holds a parseable nonzero variant price or inventory quantity, every emitted
row carries the price cell `0.0` and the stock cell `0`, and (in contrast) a
wholly absent barcode is emitted as the empty string. Part two: the same
per emitted variant row, with the contributing rows being exactly its
bucket's member rows. -/
theorem absent_numerics_emit_zero (h : String) (g : List Row) :
    ((∀ r ∈ g, ∀ v, r.variantPrice = some v → (pyFloat v).getD decZero = decZero) →
      (∀ r ∈ g, ∀ v, r.variantInventoryQty = some v → (pyInt v).getD 0 = 0) →
      ∀ row ∈ processGroup h g,
        row.satisFiyati = OutCell.flt decZero ∧ (∀ s, row.satisFiyati ≠ OutCell.str s) ∧
        row.stokAnaDepo = OutCell.int 0 ∧ (∀ s, row.stokAnaDepo ≠ OutCell.str s) ∧
        ((∀ r ∈ g, r.variantBarcode = none ∧ r.barcode = none) →
          row.barkodListesi = OutCell.str "")) ∧
    (∀ p ∈ consolidate g,
      ((∀ r ∈ p.2.rows, ∀ v, r.variantPrice = some v → (pyFloat v).getD decZero = decZero) →
        (variantIkasRow h (commonInfoOf g) (imagesOf g) (visibleOf g)
          (variantTypesOf g).1 (variantTypesOf g).2 p.2).satisFiyati = OutCell.flt decZero) ∧
      ((∀ r ∈ p.2.rows, ∀ v, r.variantInventoryQty = some v → (pyInt v).getD 0 = 0) →
        (variantIkasRow h (commonInfoOf g) (imagesOf g) (visibleOf g)
          (variantTypesOf g).1 (variantTypesOf g).2 p.2).stokAnaDepo = OutCell.int 0) ∧
      ((∀ r ∈ p.2.rows, r.variantBarcode = none ∧ r.barcode = none) →
        (variantIkasRow h (commonInfoOf g) (imagesOf g) (visibleOf g)
          (variantTypesOf g).1 (variantTypesOf g).2 p.2).barkodListesi =
          OutCell.str "")) := by
  constructor
  case right =>
    intro p hpmem
    refine ⟨?_, ?_, ?_⟩
    · intro hpb
      show OutCell.flt (p.2.rows.foldl variantMergeStep mergeInit).salePrice =
        OutCell.flt decZero
      rw [(@foldl_variantMerge_absent p.2.rows mergeInit).1 hpb rfl]
    · intro hqb
      show OutCell.int (p.2.rows.foldl variantMergeStep mergeInit).stockQty = OutCell.int 0
      rw [(@foldl_variantMerge_absent p.2.rows mergeInit).2.1 hqb rfl]
    · intro hbb
      show OutCell.str (p.2.rows.foldl variantMergeStep mergeInit).barcode = OutCell.str ""
      rw [(@foldl_variantMerge_absent p.2.rows mergeInit).2.2 hbb rfl]
  case left =>
  intro hp hq row hrow
  simp only [processGroup] at hrow
  have hsimpleCase : row = simpleIkasRow h (commonInfoOf g) (imagesOf g)
        (visibleOf g) (simpleMergeOf g) →
      row.satisFiyati = OutCell.flt decZero ∧ (∀ s, row.satisFiyati ≠ OutCell.str s) ∧
      row.stokAnaDepo = OutCell.int 0 ∧ (∀ s, row.stokAnaDepo ≠ OutCell.str s) ∧
      ((∀ r ∈ g, r.variantBarcode = none ∧ r.barcode = none) →
        row.barkodListesi = OutCell.str "") := by
    intro hr
    subst hr
    have hm := @foldl_simpleMerge_absent g mergeInit
    have h1 : (simpleIkasRow h (commonInfoOf g) (imagesOf g) (visibleOf g)
        (simpleMergeOf g)).satisFiyati = OutCell.flt decZero := by
      show OutCell.flt (g.foldl simpleMergeStep mergeInit).salePrice = OutCell.flt decZero
      rw [hm.1 hp rfl]
    have h2 : (simpleIkasRow h (commonInfoOf g) (imagesOf g) (visibleOf g)
        (simpleMergeOf g)).stokAnaDepo = OutCell.int 0 := by
      show OutCell.int (g.foldl simpleMergeStep mergeInit).stockQty = OutCell.int 0
      rw [hm.2.1 hq rfl]
    refine ⟨h1, ?_, h2, ?_, ?_⟩
    · intro s hs
      rw [h1] at hs
      cases hs
    · intro s hs
      rw [h2] at hs
      cases hs
    · intro hb
      show OutCell.str (g.foldl simpleMergeStep mergeInit).barcode = OutCell.str ""
      rw [hm.2.2 hb rfl]
  split at hrow
  · exact hsimpleCase (List.mem_singleton.mp hrow)
  · split at hrow
    · exact hsimpleCase (List.mem_singleton.mp hrow)
    · obtain ⟨p, hpmem, hpr⟩ := List.mem_map.mp hrow
      have hsub : ∀ x ∈ p.2.rows, x ∈ g := fun x hx => rows_consolidate_sub hpmem hx
      have hm := @foldl_variantMerge_absent p.2.rows mergeInit
      subst hpr
      have h1 : (variantIkasRow h (commonInfoOf g) (imagesOf g) (visibleOf g)
          (variantTypesOf g).1 (variantTypesOf g).2 p.2).satisFiyati = OutCell.flt decZero := by
        show OutCell.flt (p.2.rows.foldl variantMergeStep mergeInit).salePrice = OutCell.flt decZero
        rw [hm.1 (fun r hr => hp r (hsub r hr)) rfl]
      have h2 : (variantIkasRow h (commonInfoOf g) (imagesOf g) (visibleOf g)
          (variantTypesOf g).1 (variantTypesOf g).2 p.2).stokAnaDepo = OutCell.int 0 := by
        show OutCell.int (p.2.rows.foldl variantMergeStep mergeInit).stockQty = OutCell.int 0
        rw [hm.2.1 (fun r hr => hq r (hsub r hr)) rfl]
      refine ⟨h1, ?_, h2, ?_, ?_⟩
      · intro s hs
        rw [h1] at hs
        cases hs
      · intro s hs
        rw [h2] at hs
        cases hs
      · intro hb
        show OutCell.str (p.2.rows.foldl variantMergeStep mergeInit).barcode = OutCell.str ""
        rw [hm.2.2 (fun r hr => hb r (hsub r hr)) rfl]

/-- Witness for C10: a one-row group with an unparseable price cell and a
zero quantity cell emits price 0.0, stock 0 and an empty barcode string. -/
theorem absent_numerics_emit_zero_witness :
    (simpleIkasRow "h" (commonInfoOf [rowNoPrice]) (imagesOf [rowNoPrice])
        (visibleOf [rowNoPrice]) (simpleMergeOf [rowNoPrice])).satisFiyati =
      OutCell.flt decZero ∧
    (∀ s, (simpleIkasRow "h" (commonInfoOf [rowNoPrice]) (imagesOf [rowNoPrice])
        (visibleOf [rowNoPrice]) (simpleMergeOf [rowNoPrice])).satisFiyati ≠
      OutCell.str s) ∧
    (simpleIkasRow "h" (commonInfoOf [rowNoPrice]) (imagesOf [rowNoPrice])
        (visibleOf [rowNoPrice]) (simpleMergeOf [rowNoPrice])).stokAnaDepo =
      OutCell.int 0 ∧
    (∀ s, (simpleIkasRow "h" (commonInfoOf [rowNoPrice]) (imagesOf [rowNoPrice])
        (visibleOf [rowNoPrice]) (simpleMergeOf [rowNoPrice])).stokAnaDepo ≠
      OutCell.str s) ∧
    ((∀ r ∈ [rowNoPrice], r.variantBarcode = none ∧ r.barcode = none) →
      (simpleIkasRow "h" (commonInfoOf [rowNoPrice]) (imagesOf [rowNoPrice])
        (visibleOf [rowNoPrice]) (simpleMergeOf [rowNoPrice])).barkodListesi =
      OutCell.str "") :=
  (absent_numerics_emit_zero "h" [rowNoPrice]).1
    (by
      intro r hr v hv
      rcases List.mem_singleton.mp hr with rfl
      cases Option.some.inj hv
      decide)
    (by
      intro r hr v hv
      rcases List.mem_singleton.mp hr with rfl
      cases Option.some.inj hv
      decide)
    (simpleIkasRow "h" (commonInfoOf [rowNoPrice]) (imagesOf [rowNoPrice])
      (visibleOf [rowNoPrice]) (simpleMergeOf [rowNoPrice]))
    (by decide)

/-! ### The whitespace-SKU `continue` slip -/

/-- C4 evaluation at the failing input: `rowWsSku` has a present but
whitespace-only Variant SKU and the parseable nonzero price "5". The
per-bucket merge sets the SKU to the blank trimmed string and then skips the
remaining fields of that row (`continue`), so the emitted sale price is 0.0;
an independent per-field merge of the very same row — which is what the
shared update body computes, and what the simple-product branch does —
yields 5. -/
theorem variant_merge_continue_slip :
    ((shopifyToIkas ⟨["Handle"], [rowWsSku]⟩).toOption.map (fun out =>
        out.map (fun row => (row.satisFiyati, row.sku))) =
      some [(OutCell.flt decZero, OutCell.str "")]) ∧
      (mergeRest mergeInit rowWsSku).salePrice = Dec10.mk 5 0 ∧
      (simpleMergeOf [rowWsSku]).salePrice = Dec10.mk 5 0 ∧
      (variantMergeOf [rowWsSku]).salePrice = decZero := by
  decide

/-! ### Option3 non-interference -/

theorem eraseOpt3_handle (r : Row) : (eraseOpt3 r).handle = r.handle := rfl

theorem eraseOpt3_title (r : Row) : (eraseOpt3 r).title = r.title := rfl

theorem eraseOpt3_bodyHtml (r : Row) : (eraseOpt3 r).bodyHtml = r.bodyHtml := rfl

theorem eraseOpt3_vendor (r : Row) : (eraseOpt3 r).vendor = r.vendor := rfl

theorem eraseOpt3_type (r : Row) : (eraseOpt3 r).type = r.type := rfl

theorem eraseOpt3_productCategory (r : Row) :
    (eraseOpt3 r).productCategory = r.productCategory := rfl

theorem eraseOpt3_tags (r : Row) : (eraseOpt3 r).tags = r.tags := rfl

theorem eraseOpt3_published (r : Row) : (eraseOpt3 r).published = r.published := rfl

theorem eraseOpt3_status (r : Row) : (eraseOpt3 r).status = r.status := rfl

theorem eraseOpt3_seoTitle (r : Row) : (eraseOpt3 r).seoTitle = r.seoTitle := rfl

theorem eraseOpt3_seoDescription (r : Row) :
    (eraseOpt3 r).seoDescription = r.seoDescription := rfl

theorem eraseOpt3_createdAt (r : Row) : (eraseOpt3 r).createdAt = r.createdAt := rfl

theorem eraseOpt3_googleShoppingCategory (r : Row) :
    (eraseOpt3 r).googleShoppingCategory = r.googleShoppingCategory := rfl

theorem eraseOpt3_googleProductCategory (r : Row) :
    (eraseOpt3 r).googleProductCategory = r.googleProductCategory := rfl

theorem eraseOpt3_imageSrc (r : Row) : (eraseOpt3 r).imageSrc = r.imageSrc := rfl

theorem eraseOpt3_variantImage (r : Row) : (eraseOpt3 r).variantImage = r.variantImage := rfl

theorem filterMap_map_eraseOpt3 (f : Row → Cell) (g : List Row)
    (hf : ∀ r, f (eraseOpt3 r) = f r) :
    (g.map eraseOpt3).filterMap f = g.filterMap f := by
  rw [List.filterMap_map]
  have : f ∘ eraseOpt3 = f := funext hf
  rw [this]

theorem commonInfoOf_erase (g : List Row) :
    commonInfoOf (g.map eraseOpt3) = commonInfoOf g := by
  unfold commonInfoOf categoryOf googleCategoryOf firstNonNA hasNonNA
  rw [filterMap_map_eraseOpt3 _ _ eraseOpt3_title,
    filterMap_map_eraseOpt3 _ _ eraseOpt3_bodyHtml,
    filterMap_map_eraseOpt3 _ _ eraseOpt3_productCategory,
    filterMap_map_eraseOpt3 _ _ eraseOpt3_type,
    filterMap_map_eraseOpt3 _ _ eraseOpt3_tags,
    filterMap_map_eraseOpt3 _ _ eraseOpt3_vendor,
    filterMap_map_eraseOpt3 _ _ eraseOpt3_seoTitle,
    filterMap_map_eraseOpt3 _ _ eraseOpt3_seoDescription,
    filterMap_map_eraseOpt3 _ _ eraseOpt3_googleShoppingCategory,
    filterMap_map_eraseOpt3 _ _ eraseOpt3_googleProductCategory,
    filterMap_map_eraseOpt3 _ _ eraseOpt3_createdAt]

theorem statusValueOf_erase (g : List Row) :
    statusValueOf (g.map eraseOpt3) = statusValueOf g := by
  unfold statusValueOf
  rw [filterMap_map_eraseOpt3 _ _ eraseOpt3_status,
    filterMap_map_eraseOpt3 _ _ eraseOpt3_published]

theorem visibleOf_erase (g : List Row) : visibleOf (g.map eraseOpt3) = visibleOf g := by
  unfold visibleOf
  rw [statusValueOf_erase]

theorem imagesOf_erase (g : List Row) : imagesOf (g.map eraseOpt3) = imagesOf g := by
  unfold imagesOf
  rw [filterMap_map_eraseOpt3 _ _ eraseOpt3_imageSrc,
    filterMap_map_eraseOpt3 _ _ eraseOpt3_variantImage]

theorem isSimpleFirstRow_erase (g : List Row) :
    isSimpleFirstRow (g.map eraseOpt3) = isSimpleFirstRow g := by
  cases g with
  | nil => rfl
  | cons a l => rfl

theorem variantTypesOf_erase (g : List Row) :
    variantTypesOf (g.map eraseOpt3) = variantTypesOf g := by
  cases g with
  | nil => rfl
  | cons a l => rfl

theorem variantKeyOf_erase (r : Row) : variantKeyOf (eraseOpt3 r) = variantKeyOf r := rfl

theorem simpleMergeStep_erase (acc : MergeAcc) (r : Row) :
    simpleMergeStep acc (eraseOpt3 r) = simpleMergeStep acc r := rfl

theorem variantMergeStep_erase (acc : MergeAcc) (r : Row) :
    variantMergeStep acc (eraseOpt3 r) = variantMergeStep acc r := rfl

theorem simpleMergeOf_erase (g : List Row) :
    simpleMergeOf (g.map eraseOpt3) = simpleMergeOf g := by
  unfold simpleMergeOf
  rw [List.foldl_map]
  rfl

theorem variantMergeOf_erase (rs : List Row) :
    variantMergeOf (rs.map eraseOpt3) = variantMergeOf rs := by
  unfold variantMergeOf
  rw [List.foldl_map]
  rfl

theorem map_fst_eraseBucketRows (bs : List (VKey × Bucket)) :
    (bs.map eraseBucketRows).map Prod.fst = bs.map Prod.fst := by
  rw [List.map_map]
  rfl

theorem insertVariantRow_erase (bs : List (VKey × Bucket)) (r : Row) :
    insertVariantRow (bs.map eraseBucketRows) (eraseOpt3 r) =
      (insertVariantRow bs r).map eraseBucketRows := by
  cases hk : variantKeyOf r with
  | none =>
    simp [insertVariantRow, variantKeyOf_erase, hk]
  | some k =>
    by_cases hmem : k ∈ bs.map Prod.fst
    · have hmem2 : k ∈ (bs.map eraseBucketRows).map Prod.fst := by
        rw [map_fst_eraseBucketRows]
        exact hmem
      have hl : insertVariantRow (bs.map eraseBucketRows) (eraseOpt3 r) =
          (bs.map eraseBucketRows).map (fun p => if p.1 = k then
            (p.1, { p.2 with rows := p.2.rows ++ [eraseOpt3 r] }) else p) := by
        simp only [insertVariantRow, variantKeyOf_erase, hk]
        rw [if_pos hmem2]
      have hr : (insertVariantRow bs r).map eraseBucketRows =
          (bs.map (fun p => if p.1 = k then
            (p.1, { p.2 with rows := p.2.rows ++ [r] }) else p)).map eraseBucketRows := by
        have he : insertVariantRow bs r = bs.map (fun p => if p.1 = k then
            (p.1, { p.2 with rows := p.2.rows ++ [r] }) else p) := by
          simp only [insertVariantRow, hk]
          rw [if_pos hmem]
        rw [he]
      rw [hl, hr, List.map_map, List.map_map]
      refine List.map_congr_left ?_
      intro p _
      by_cases hpk : p.1 = k
      · simp only [Function.comp_apply, eraseBucketRows, hpk, if_pos rfl]
        simp [hpk]
      · simp only [Function.comp_apply, eraseBucketRows, hpk]
        simp [hpk]
    · have hmem2 : k ∉ (bs.map eraseBucketRows).map Prod.fst := by
        rw [map_fst_eraseBucketRows]
        exact hmem
      have hl : insertVariantRow (bs.map eraseBucketRows) (eraseOpt3 r) =
          bs.map eraseBucketRows ++ [(k, ⟨cleanOption (eraseOpt3 r).option1Value,
            cleanOption (eraseOpt3 r).option2Value, [eraseOpt3 r]⟩)] := by
        simp only [insertVariantRow, variantKeyOf_erase, hk]
        rw [if_neg hmem2]
      have hr : insertVariantRow bs r =
          bs ++ [(k, ⟨cleanOption r.option1Value, cleanOption r.option2Value, [r]⟩)] := by
        simp only [insertVariantRow, hk]
        rw [if_neg hmem]
      rw [hl, hr, List.map_append]
      rfl

theorem consolidate_erase (g : List Row) :
    consolidate (g.map eraseOpt3) = (consolidate g).map eraseBucketRows := by
  unfold consolidate
  suffices h : ∀ bs, (g.map eraseOpt3).foldl insertVariantRow (bs.map eraseBucketRows) =
      (g.foldl insertVariantRow bs).map eraseBucketRows from h []
  induction g with
  | nil => intro bs; rfl
  | cons r g ih =>
    intro bs
    simp only [List.map_cons, List.foldl_cons]
    rw [insertVariantRow_erase, ih]

theorem variantIkasRow_erase (h : String) (c : CommonInfo) (images : String)
    (visible : Bool) (t1 t2 : String) (p : VKey × Bucket) :
    variantIkasRow h c images visible t1 t2 (eraseBucketRows p).2 =
      variantIkasRow h c images visible t1 t2 p.2 := by
  show variantIkasRow h c images visible t1 t2
      ⟨p.2.option1Value, p.2.option2Value, p.2.rows.map eraseOpt3⟩ =
    variantIkasRow h c images visible t1 t2 p.2
  unfold variantIkasRow
  rw [show (Bucket.mk p.2.option1Value p.2.option2Value (p.2.rows.map eraseOpt3)).rows =
      p.2.rows.map eraseOpt3 from rfl, variantMergeOf_erase]

theorem processGroup_erase (h : String) (g : List Row) :
    processGroup h (g.map eraseOpt3) = processGroup h g := by
  unfold processGroup
  rw [commonInfoOf_erase, imagesOf_erase, visibleOf_erase, isSimpleFirstRow_erase,
    simpleMergeOf_erase, consolidate_erase, variantTypesOf_erase]
  by_cases hs : isSimpleFirstRow g
  · simp [hs]
  · simp only [hs, Bool.false_eq_true, if_false]
    have hie : ((consolidate g).map eraseBucketRows).isEmpty = (consolidate g).isEmpty := by
      cases consolidate g with
      | nil => rfl
      | cons a l => rfl
    rw [hie]
    by_cases he : (consolidate g).isEmpty
    · simp [he]
    · simp only [he, Bool.false_eq_true, if_false, List.map_map]
      refine List.map_congr_left ?_
      intro p _
      exact variantIkasRow_erase h (commonInfoOf g) (imagesOf g) (visibleOf g)
        (variantTypesOf g).1 (variantTypesOf g).2 p

theorem ffillFrom_erase (last : Cell) (rows : List Row) :
    ffillFrom last (rows.map eraseOpt3) = (ffillFrom last rows).map eraseOpt3 := by
  induction rows generalizing last with
  | nil => rfl
  | cons r rows ih =>
    simp only [List.map_cons, ffillFrom]
    rw [ih]
    rfl

theorem shopifyToIkas_erase (cols : List String) (rows : List Row) :
    shopifyToIkas ⟨cols, rows.map eraseOpt3⟩ = shopifyToIkas ⟨cols, rows⟩ := by
  unfold shopifyToIkas
  by_cases hcol : "Handle" ∈ cols
  · simp only [if_pos hcol]
    have hff : ffillRows (rows.map eraseOpt3) = (ffillRows rows).map eraseOpt3 :=
      ffillFrom_erase none rows
    rw [hff, filterMap_map_eraseOpt3 _ _ eraseOpt3_handle]
    refine congrArg Except.ok ?_
    have hfun : (fun h => processGroup h (groupRows ((ffillRows rows).map eraseOpt3) h)) =
        (fun h => processGroup h (groupRows (ffillRows rows) h)) := by
      funext h
      rw [show groupRows ((ffillRows rows).map eraseOpt3) h =
          ((ffillRows rows).filter (fun r => decide (r.handle = some h))).map eraseOpt3 from by
        unfold groupRows
        rw [List.filter_map]
        rfl]
      exact processGroup_erase h _
    show (dedupKeep (List.filterMap (fun r => r.handle) (ffillRows rows))).flatMap
        (fun h => processGroup h (groupRows ((ffillRows rows).map eraseOpt3) h)) =
      (dedupKeep (List.filterMap (fun r => r.handle) (ffillRows rows))).flatMap
        (fun h => processGroup h (groupRows (ffillRows rows) h))
    rw [hfun]
  · simp [hcol]

/-- C9: two input tables identical except in the cells of the Option3 Name
and Option3 Value columns convert to identical output tables — the third
option axis never influences classification, variant keys, field merging or
any emitted field. -/
theorem option3_noninterference (t1 t2 : Table) (hc : t1.columns = t2.columns)
    (hr : t1.rows.map eraseOpt3 = t2.rows.map eraseOpt3) :
    shopifyToIkas t1 = shopifyToIkas t2 := by
  obtain ⟨c1, r1⟩ := t1
  obtain ⟨c2, r2⟩ := t2
  simp only at hc hr
  cases hc
  calc shopifyToIkas ⟨c1, r1⟩
      = shopifyToIkas ⟨c1, r1.map eraseOpt3⟩ := (shopifyToIkas_erase c1 r1).symm
    _ = shopifyToIkas ⟨c1, r2.map eraseOpt3⟩ := by rw [hr]
    _ = shopifyToIkas ⟨c1, r2⟩ := shopifyToIkas_erase c1 r2

/-- Witness for C9: two one-row tables differing only in their Option3 cells
produce the same output. -/
theorem option3_noninterference_witness :
    shopifyToIkas tblOpt3a = shopifyToIkas tblOpt3b :=
  option3_noninterference tblOpt3a tblOpt3b rfl (by decide)

end ShopifyIkas
